import Mathlib

/-!
Verification development for the poetry-declamation lesson-plan generator
(`build.py` and `build_v3.py`): a shallow embedding of the markdown-dialect
parser and HTML emitter, followed by theorems about its behaviour.

Strings are modelled by Lean `String` (a wrapper around `List Char`); the
character-level scanning functions work directly on `List Char`.  Every
regular expression that occurs in the source is replaced by an equivalent
hand-rolled matcher; each such matcher is annotated with the regex it
implements.  Input lines are produced by `splitlines` and therefore never
contain line-break characters, which the matchers rely on where noted.
-/

set_option maxHeartbeats 1000000
set_option maxRecDepth 16384

namespace Classroom

/-- Whitespace characters recognised by Python `str.strip` / regex `\s`
(ASCII range, which is all the sources use). -/
def isPySpace (c : Char) : Bool :=
  c == ' ' || c == '\t' || c == '\n' || c == '\r' || c == '\x0b' || c == '\x0c'

/-- Membership in the regex character class `[a-zA-Z0-9_\-]`. -/
def idChar (c : Char) : Bool :=
  c.isAlpha || c.isDigit || c == '_' || c == '-'

/-- Python `str.lstrip()` on a character list. -/
def lstripL (l : List Char) : List Char := l.dropWhile isPySpace

/-- Python `str.rstrip()` on a character list. -/
def rstripL (l : List Char) : List Char := (l.reverse.dropWhile isPySpace).reverse

/-- Python `str.strip()` on a character list. -/
def stripL (l : List Char) : List Char := lstripL (rstripL l)

/-- Python `str.rstrip("\n")` on a character list. -/
def rstripNLL (l : List Char) : List Char := (l.reverse.dropWhile (fun c => c == '\n')).reverse

/-- Python `str.strip()`. -/
def stripS (s : String) : String := String.mk (stripL s.data)

/-- Python `str.rstrip()`. -/
def rstripS (s : String) : String := String.mk (rstripL s.data)

/-- Escape of one character under Python `html.escape(..., quote=True)`.
The source's sequential `str.replace` chain is equivalent to this
character-wise map because no replacement string contains a character that a
later step rewrites at a position introduced by an earlier one. -/
def escChar (c : Char) : List Char :=
  if c = '&' then ("&amp;").data
  else if c = '<' then ("&lt;").data
  else if c = '>' then ("&gt;").data
  else if c = '"' then ("&quot;").data
  else if c = '\x27' then ("&#x27;").data
  else [c]

/-- Python `html.escape(s, quote=True)` on a character list.  Every call to
`html.escape` in both sources uses `quote=True` (explicitly or by default). -/
def htmlEscapeL (l : List Char) : List Char := (l.map escChar).flatten

/-- Python `html.escape(s, quote=True)`. -/
def htmlEscape (s : String) : String := String.mk (htmlEscapeL s.data)

/-- Match a literal character sequence at the head of the input, returning
the remainder on success. -/
def matchLit : List Char → List Char → Option (List Char)
  | [], l => some l
  | _ :: _, [] => none
  | p :: ps, c :: cs => if c = p then matchLit ps cs else none

/-- Line-break characters recognised by Python `str.splitlines`. -/
def isBreakChar (c : Char) : Bool :=
  c == '\n' || c == '\r' || c == '\x0b' || c == '\x0c' || c == '\x1c' ||
  c == '\x1d' || c == '\x1e' || c == '\x85' || c == ' ' || c == ' '

/-- Worker for `splitlines`: `acc` is the current line, reversed. -/
def splitLinesGo : List Char → List Char → List (List Char)
  | acc, [] => if acc.isEmpty then [] else [acc.reverse]
  | acc, '\r' :: '\n' :: rest => acc.reverse :: splitLinesGo [] rest
  | acc, c :: rest =>
    if isBreakChar c then acc.reverse :: splitLinesGo [] rest
    else splitLinesGo (c :: acc) rest

/-- Python `str.splitlines()`: split at line breaks, `\r\n` counting as one
break, with no trailing empty line for a terminal break. -/
def splitlines (s : String) : List String := (splitLinesGo [] s.data).map String.mk

/-- A bookmark record: the Python dict
`{"type": rtype, "label": "", "url": "", "desc": ""}`. -/
structure Item where
  type : String
  label : String
  url : String
  desc : String
deriving DecidableEq

/-- The resource mapping `dict[str, dict[str, str]]`, as an association list
in insertion order with unique keys. -/
abbrev RMap := List (String × Item)

/-- Python `dict.get`: look up a key (keys are unique, so first match). -/
def getRes : RMap → String → Option Item
  | [], _ => none
  | (k, it) :: rest, rid => if k = rid then some it else getRes rest rid

/-- Python `dict` assignment `resources[rid] = item`: overwrite in place if
the key is present, else append. -/
def rinsert (res : RMap) (rid : String) (it : Item) : RMap :=
  if (getRes res rid).isSome then
    res.map (fun p => if p.1 = rid then (rid, it) else p)
  else res ++ [(rid, it)]

/-- Tail of the declaration regex `^@(video|link)\s+([a-zA-Z0-9_\-]+)\s*$`
after the literal keyword: at least one space, then the id, then only
spaces.  The character classes `\s` and `[a-zA-Z0-9_\-]` are disjoint, so
greedy matching without backtracking is exact. -/
def idTail (r : List Char) : Option String :=
  match r with
  | [] => none
  | c :: _ =>
    if isPySpace c then
      let r1 := r.dropWhile isPySpace
      let idc := r1.takeWhile idChar
      let r2 := r1.dropWhile idChar
      if idc.isEmpty then none
      else if r2.all isPySpace then some (String.mk idc) else none
    else none

/-- `re.match(r"^@(video|link)\s+([a-zA-Z0-9_\-]+)\s*$", line)`, returning
`(rtype, rid)`.  The alternatives `@video` and `@link` differ at their
second character, so at most one literal can match. -/
def declMatch (l : List Char) : Option (String × String) :=
  match matchLit (("@video").data) l with
  | some r => (idTail r).map (fun rid => ("video", rid))
  | none =>
    match matchLit (("@link").data) l with
    | some r => (idTail r).map (fun rid => ("link", rid))
    | none => none

/-- `re.match(r"^@(video|link)\s+", nxt)` as a Boolean. -/
def declBreak (l : List Char) : Bool :=
  match matchLit (("@video").data) l with
  | some (c :: _) => isPySpace c
  | some [] => false
  | none =>
    match matchLit (("@link").data) l with
    | some (c :: _) => isPySpace c
    | _ => false

/-- Tail of the key-value regex `^(label|url|desc)\s*:\s*(.+)\s*$` after the
literal key: optional spaces, a colon, then the (nonempty) value group.
The greedy `(.+)` runs to the end of the line (lines contain no `\n`), so
the value group is everything after the colon minus leading whitespace. -/
def kvTail (r : List Char) : Option (List Char) :=
  match r.dropWhile isPySpace with
  | ':' :: r2 =>
    let v := r2.dropWhile isPySpace
    if v.isEmpty then none else some v
  | _ => none

/-- `re.match(r"^(label|url|desc)\s*:\s*(.+)\s*$", nxt)`, returning the key
and the raw value group.  The three key literals differ at their first
character, so at most one can match. -/
def kvMatch (l : List Char) : Option (String × List Char) :=
  match matchLit (("label").data) l with
  | some r => (kvTail r).map (fun v => ("label", v))
  | none =>
    match matchLit (("url").data) l with
    | some r => (kvTail r).map (fun v => ("url", v))
    | none =>
      match matchLit (("desc").data) l with
      | some r => (kvTail r).map (fun v => ("desc", v))
      | none => none

/-- Fresh record for a declaration `@<rtype> <rid>`. -/
def initItem (rt : String) : Item := ⟨rt, "", "", ""⟩

/-- `item[kv.group(1)] = kv.group(2).strip()`. -/
def setAttr (it : Item) (k : String) (v : String) : Item :=
  if k = "label" then { it with label := v }
  else if k = "url" then { it with url := v }
  else if k = "desc" then { it with desc := v }
  else it

/-- The `parse_bookmarks` scan of `build.py` (identical in `build_v3.py`),
restructured from its nested `while` loops into a single pass that carries
the currently open record (if any).  In the source, the outer loop matches
the full declaration regex on the `rstrip`-ped line; once a record is open,
the inner loop finalises it on a line matching the declaration *prefix*
regex (re-processing that line as a potential new declaration), otherwise
applies the key-value regex, otherwise ignores the line. -/
def pbLoop : List String → Option (String × Item) → RMap → RMap
  | [], none, acc => acc
  | [], some (rid, it), acc => rinsert acc rid it
  | l :: ls, none, acc =>
    match declMatch (rstripL l.data) with
    | some (rt, rid) => pbLoop ls (some (rid, initItem rt)) acc
    | none => pbLoop ls none acc
  | l :: ls, some (rid, it), acc =>
    let nxt := rstripL l.data
    if declBreak nxt then
      let acc2 := rinsert acc rid it
      match declMatch nxt with
      | some (rt, rid2) => pbLoop ls (some (rid2, initItem rt)) acc2
      | none => pbLoop ls none acc2
    else
      match kvMatch nxt with
      | some (k, v) => pbLoop ls (some (rid, setAttr it k (String.mk (stripL v)))) acc
      | none => pbLoop ls (some (rid, it)) acc

/-- `parse_bookmarks(md)`. -/
def parse_bookmarks (md : String) : RMap := pbLoop (splitlines md) none []

/-- The sequence of finalised `(rid, item)` records of the bookmark scan in
textual order, duplicates included — the arguments of the successive
`resources[rid] = item` assignments. -/
def pbRecords : List String → Option (String × Item) → List (String × Item)
  | [], none => []
  | [], some (rid, it) => [(rid, it)]
  | l :: ls, none =>
    match declMatch (rstripL l.data) with
    | some (rt, rid) => pbRecords ls (some (rid, initItem rt))
    | none => pbRecords ls none
  | l :: ls, some (rid, it) =>
    let nxt := rstripL l.data
    if declBreak nxt then
      (rid, it) ::
        (match declMatch nxt with
         | some (rt, rid2) => pbRecords ls (some (rid2, initItem rt))
         | none => pbRecords ls none)
    else
      match kvMatch nxt with
      | some (k, v) => pbRecords ls (some (rid, setAttr it k (String.mk (stripL v))))
      | none => pbRecords ls (some (rid, it))

/-- The value attached to the textually last record with a given id. -/
def lastAssoc : List (String × Item) → String → Option Item
  | [], _ => none
  | (k, it) :: rest, rid =>
    match lastAssoc rest rid with
    | some r => some r
    | none => if k = rid then some it else none

/-- The "missing bookmark" fragment of `video_block`. -/
def missingFrag (rid : String) : String :=
  "<div class=\x27video\x27><div class=\x27video-top\x27><div class=\x27video-title\x27><span class=\x27tag\x27>Video</span> Missing bookmark: <code>"
    ++ htmlEscape rid ++ "</code></div></div></div>"

/-- Characters at which the capture groups `([^?&/]+)` of the two video-id
regexes stop. -/
def isVidStop (c : Char) : Bool := c == '?' || c == '&' || c == '/'

/-- `re.search(pat + r"([^?&/]+)", url)` for a literal `pat`: find the
leftmost position where the literal matches and is followed by at least one
character outside `?&/`; return that greedy run.  On a failed attempt the
scan advances one character, exactly like the backtrack-free regex. -/
def searchVid (pat : List Char) : List Char → Option (List Char)
  | [] => none
  | c :: rest =>
    match matchLit pat (c :: rest) with
    | some r =>
      let run := r.takeWhile (fun c => !isVidStop c)
      if run.isEmpty then searchVid pat rest else some run
    | none => searchVid pat rest

/-- Lines 48–87 of `build.py` (`video_block` past the missing-bookmark
guard), as a function of the record's `url`, `label` and `desc` fields. -/
def videoBody (url lab dsc : String) : String :=
  let label := stripS (if lab = "" then "Video" else lab)
  let desc := stripS dsc
  let vid : Option (List Char) :=
    match searchVid (("youtube.com/watch?v=").data) url.data with
    | some v => some v
    | none => searchVid (("youtu.be/").data) url.data
  let safe_url := htmlEscape url
  let safe_label := htmlEscape label
  let safe_desc := htmlEscape desc
  let thumb_html :=
    match vid with
    | some v =>
      let thumb := "https://i.ytimg.com/vi/" ++ String.mk v ++ "/hqdefault.jpg"
      "<a class=\x27video-thumb\x27 href=\"" ++ safe_url
        ++ "\" target=\"_blank\" rel=\"noreferrer\"><img alt=\x27Video thumbnail\x27 src=\""
        ++ htmlEscape thumb ++ "\"></a>"
    | none => ""
  let top :=
    "<div class=\x27video-top\x27>" ++ thumb_html
      ++ "<div class=\x27video-title\x27><span class=\x27tag\x27>Video</span> <a href=\""
      ++ safe_url ++ "\" target=\"_blank\" rel=\"noreferrer\"><strong>" ++ safe_label
      ++ "</strong></a></div>"
      ++ (if desc ≠ "" then "<p class=\x27video-desc\x27>" ++ safe_desc ++ "</p>" else "")
      ++ "</div>"
  let bottom :=
    "<div class=\x27video-bottom\x27><p class=\x27video-open\x27><a href=\"" ++ safe_url
      ++ "\" target=\"_blank\" rel=\"noreferrer\">Open on YouTube</a></p></div>"
  "<div class=\x27video\x27>" ++ top ++ bottom ++ "</div>"

/-- `video_block(rid, resources)`.  In the source the `vid` extraction runs
the `youtu.be` search first and lets a successful `watch?v=` search
override it, which is the same as preferring the `watch?v=` result. -/
def video_block (rid : String) (resources : RMap) : String :=
  match getRes resources rid with
  | none => missingFrag rid
  | some item =>
    if item.url = "" then missingFrag rid
    else videoBody item.url item.label item.desc

/-- The "missing" code span of `inline_link`. -/
def missingInline (rid : String) : String :=
  "<code>Missing:" ++ htmlEscape rid ++ "</code>"

/-- `inline_link(rid, resources)`. -/
def inline_link (rid : String) (resources : RMap) : String :=
  match getRes resources rid with
  | none => missingInline rid
  | some item =>
    if item.url = "" then missingInline rid
    else
      let label := stripS (if item.label = "" then "Link" else item.label)
      "<a href=\"" ++ htmlEscape item.url ++ "\" target=\"_blank\" rel=\"noreferrer\">"
        ++ htmlEscape label ++ "</a>"

/-- `re.sub(r"\{\{link:([a-zA-Z0-9_\-]+)\}\}", sub, text)`: leftmost,
non-overlapping replacement; a failed attempt advances one character.  The
fuel argument only bounds the recursion: every step consumes at least one
input character, so fuel `l.length` is never exhausted. -/
def expandRefsGo (res : RMap) : Nat → List Char → List Char
  | 0, l => l
  | _ + 1, [] => []
  | n + 1, c :: rest =>
    match matchLit (("\x7b\x7blink:").data) (c :: rest) with
    | some r =>
      let idc := r.takeWhile idChar
      let r2 := r.dropWhile idChar
      if idc.isEmpty then c :: expandRefsGo res n rest
      else
        match matchLit (("\x7d\x7d").data) r2 with
        | some r3 => (inline_link (String.mk idc) res).data ++ expandRefsGo res n r3
        | none => c :: expandRefsGo res n rest
    | none => c :: expandRefsGo res n rest

/-- `expand_inline_refs(text, resources)`. -/
def expand_inline_refs (text : String) (resources : RMap) : String :=
  String.mk (expandRefsGo resources text.data.length text.data)

/-- Regex `\w` (ASCII). -/
def isWordChar (c : Char) : Bool := c.isAlpha || c.isDigit || c == '_'

/-- Lazy part `.*?</a>` of the anchor-protection regex: the shortest run of
non-newline characters followed by the literal `</a>`; returns the run and
the remainder after the literal. -/
def lazyAnchorEnd : List Char → Option (List Char × List Char)
  | [] => none
  | c :: rest =>
    match matchLit (("</a>").data) (c :: rest) with
    | some r3 => some ([], r3)
    | none =>
      if c = '\n' then none
      else (lazyAnchorEnd rest).map (fun p => (c :: p.1, p.2))

/-- One attempt of the regex `<a\b[^>]*>.*?</a>` at the head of the input:
returns the full matched anchor text and the remainder. -/
def anchorMatch (l : List Char) : Option (List Char × List Char) :=
  match matchLit (("<a").data) l with
  | none => none
  | some r =>
    let bOk := match r with
      | [] => true
      | c :: _ => !isWordChar c
    if bOk then
      let attrs := r.takeWhile (fun c => c ≠ '>')
      match r.dropWhile (fun c => c ≠ '>') with
      | '>' :: r2 =>
        match lazyAnchorEnd r2 with
        | some (body, r3) =>
          some ((("<a").data ++ attrs ++ '>' :: body ++ ("</a>").data), r3)
        | none => none
      | _ => none
    else none

/-- Placeholder `f"@@ANCHOR{i}@@"`. -/
def placeholder (i : Nat) : List Char := ("@@ANCHOR" ++ toString i ++ "@@").data

/-- `re.sub(r"<a\b[^>]*>.*?</a>", protect, text)` together with the
`anchors` side list.  Fuel as in `expandRefsGo`. -/
def protectGo : Nat → List (List Char) → List Char → List Char × List (List Char)
  | 0, acc, l => (l, acc)
  | _ + 1, acc, [] => ([], acc)
  | n + 1, acc, c :: rest =>
    match anchorMatch (c :: rest) with
    | some (anc, r) =>
      let ph := placeholder acc.length
      let p := protectGo n (acc ++ [anc]) r
      (ph ++ p.1, p.2)
    | none =>
      let p := protectGo n acc rest
      (c :: p.1, p.2)

/-- `re.sub(r"`([^`]+)`", r"<code>\1</code>", esc)`: at a backtick, a
nonempty backtick-free run followed by a closing backtick is replaced; a
failed attempt advances one character.  Fuel as above. -/
def codeSubGo : Nat → List Char → List Char
  | 0, l => l
  | _ + 1, [] => []
  | n + 1, c :: rest =>
    if c = '`' then
      match rest.span (fun c => c ≠ '`') with
      | (run, '`' :: rest2) =>
        if run.isEmpty then '`' :: codeSubGo n rest
        else ("<code>").data ++ run ++ ("</code>").data ++ codeSubGo n rest2
      | _ => '`' :: codeSubGo n rest
    else c :: codeSubGo n rest

/-- `re.sub(r"\*\*([^*]+)\*\*", r"<strong>\1</strong>", esc)`. -/
def boldSubGo : Nat → List Char → List Char
  | 0, l => l
  | _ + 1, [] => []
  | n + 1, c :: rest =>
    if c = '*' then
      match rest with
      | '*' :: rest1 =>
        (match rest1.span (fun c => c ≠ '*') with
         | (run, '*' :: '*' :: rest2) =>
           if run.isEmpty then '*' :: boldSubGo n rest
           else ("<strong>").data ++ run ++ ("</strong>").data ++ boldSubGo n rest2
         | _ => '*' :: boldSubGo n rest)
      | _ => c :: boldSubGo n rest
    else c :: boldSubGo n rest

/-- `re.sub(r"(?<!\*)\*([^*]+)\*(?!\*)", r"<em>\1</em>", esc)`.  The Boolean
argument records whether the previous character of the original string was
`*` (the negative lookbehind). -/
def italSubGo : Nat → Bool → List Char → List Char
  | 0, _, l => l
  | _ + 1, _, [] => []
  | n + 1, prev, c :: rest =>
    if c = '*' then
      if prev then '*' :: italSubGo n true rest
      else
        match rest.span (fun c => c ≠ '*') with
        | (run, '*' :: rest2) =>
          if run.isEmpty then '*' :: italSubGo n true rest
          else
            (match rest2 with
             | '*' :: _ => '*' :: italSubGo n true rest
             | _ => ("<em>").data ++ run ++ ("</em>").data ++ italSubGo n true rest2)
        | _ => '*' :: italSubGo n true rest
    else c :: italSubGo n false rest

/-- `esc.replace(pat, rep)` for a nonempty literal `pat`: replace every
leftmost, non-overlapping occurrence. -/
def replAllGo (pat rep : List Char) : Nat → List Char → List Char
  | 0, l => l
  | _ + 1, [] => []
  | n + 1, c :: rest =>
    match matchLit pat (c :: rest) with
    | some r => rep ++ replAllGo pat rep n r
    | none => c :: replAllGo pat rep n rest

/-- `for i, a in enumerate(anchors): esc = esc.replace(f"@@ANCHOR{i}@@", a)`. -/
def restoreGo : Nat → List (List Char) → List Char → List Char
  | _, [], l => l
  | i, a :: rest, l => restoreGo (i + 1) rest (replAllGo (placeholder i) a l.length l)

/-- `inline_format(text)`: protect anchors, HTML-escape, apply the code,
bold and italic substitutions in that order, restore the anchors. -/
def inline_format (text : String) : String :=
  let pa := protectGo text.data.length [] text.data
  let esc := htmlEscapeL pa.1
  let esc1 := codeSubGo esc.length esc
  let esc2 := boldSubGo esc1.length esc1
  let esc3 := italSubGo esc2.length false esc2
  String.mk (restoreGo 0 pa.2 esc3)

/-- The prompt bundle of a fenced video block:
`{"task": "", "watch": [], "after": []}`. -/
structure Prompts where
  task : String
  watch : List String
  after : List String
deriving DecidableEq

/-- `local_prompts_block(prompts, resources)`. -/
def local_prompts_block (prompts : Prompts) (resources : RMap) : String :=
  let task := stripS prompts.task
  let taskSec : List String :=
    if task = "" then []
    else ["<div class=\x27prompt-section\x27><div class=\x27prompt-title\x27>Task</div><p>"
            ++ inline_format (expand_inline_refs task resources) ++ "</p></div>"]
  let watchSec : List String :=
    if prompts.watch.isEmpty then []
    else ["<div class=\x27prompt-section\x27><div class=\x27prompt-title\x27>Watch for</div><ul>"
            ++ String.join (prompts.watch.map (fun it =>
                 "<li>" ++ inline_format (expand_inline_refs it resources) ++ "</li>"))
            ++ "</ul></div>"]
  let afterSec : List String :=
    if prompts.after.isEmpty then []
    else ["<div class=\x27prompt-section\x27><div class=\x27prompt-title\x27>After watching</div><ul>"
            ++ String.join (prompts.after.map (fun it =>
                 "<li>" ++ inline_format (expand_inline_refs it resources) ++ "</li>"))
            ++ "</ul></div>"]
  let sections := taskSec ++ watchSec ++ afterSec
  if sections.isEmpty then ""
  else
    "<div class=\x27local-prompts\x27><div class=\x27local-prompts-title\x27>Local prompts</div>"
      ++ String.join sections ++ "</div>"

/-- Tail of `re.match(r"^(task|watch|after)\s*:\s*(.*)$", ...)` after the
literal key: optional spaces, a colon, then the (possibly empty) rest of
the line. -/
def keyTail (r : List Char) : Option (List Char) :=
  match r.dropWhile isPySpace with
  | ':' :: r2 => some (r2.dropWhile isPySpace)
  | _ => none

/-- `re.match(r"^(task|watch|after)\s*:\s*(.*)$", line_in.strip())`.  The
three key literals differ at their first character. -/
def keyMatch (l : List Char) : Option (String × List Char) :=
  match matchLit (("task").data) l with
  | some r => (keyTail r).map (fun v => ("task", v))
  | none =>
    match matchLit (("watch").data) l with
    | some r => (keyTail r).map (fun v => ("watch", v))
    | none =>
      match matchLit (("after").data) l with
      | some r => (keyTail r).map (fun v => ("after", v))
      | none => none

/-- `re.match(r"^\s*-\s+(.*)$", line_in)`, returning the raw item group. -/
def itemMatch (l : List Char) : Option (List Char) :=
  match l.dropWhile isPySpace with
  | '-' :: r =>
    match r with
    | c :: _ => if isPySpace c then some (r.dropWhile isPySpace) else none
    | [] => none
  | _ => none

/-- State of the fenced-video sub-parser: the block's resource id, the
accumulated prompt bundle and the `current` section key. -/
structure FenceSt where
  rid : String
  prompts : Prompts
  current : Option String
deriving DecidableEq

/-- One body line of the fenced-video sub-parser (lines 238–272 of
`build.py`), for a line that is not the closing fence.  `raw` is the line
after `rstrip("\n")`; `line_in = raw.rstrip()`. -/
def fenceLine (fs : FenceSt) (raw : String) : FenceSt :=
  let lineIn := rstripL raw.data
  match keyMatch (stripL lineIn) with
  | some (k, restRaw) =>
    let rest := String.mk (stripL restRaw)
    if k = "task" then
      { fs with prompts := { fs.prompts with task := rest }, current := some k }
    else if k = "watch" then
      { fs with
        prompts := { fs.prompts with
          watch := fs.prompts.watch ++ (if rest = "" then [] else [rest]) },
        current := some k }
    else
      { fs with
        prompts := { fs.prompts with
          after := fs.prompts.after ++ (if rest = "" then [] else [rest]) },
        current := some k }
  | none =>
    match (if fs.current = some "watch" ∨ fs.current = some "after"
           then itemMatch lineIn else none) with
    | some txt =>
      let t := String.mk (stripL txt)
      if fs.current = some "watch" then
        { fs with prompts := { fs.prompts with watch := fs.prompts.watch ++ [t] } }
      else
        { fs with prompts := { fs.prompts with after := fs.prompts.after ++ [t] } }
    | none =>
      if fs.current = some "task" ∧ ¬ (stripL lineIn).isEmpty then
        let t := stripL fs.prompts.task.data
        let joiner : List Char := if t.isEmpty then [] else [' ']
        { fs with prompts := { fs.prompts with
            task := String.mk (t ++ joiner ++ stripL lineIn) } }
      else fs

/-- The combined fragment emitted for one fenced video block. -/
def fenceEmit (res : RMap) (fs : FenceSt) : String :=
  "<div class=\x27video-stack\x27>" ++ video_block fs.rid res
    ++ local_prompts_block fs.prompts res ++ "</div>"

/-- `re.match(r"^```video\s+([a-zA-Z0-9_\-]+)\s*$", line.strip())`. -/
def fenceOpen (l : List Char) : Option String :=
  match matchLit (("```video").data) l with
  | some r => idTail r
  | none => none

/-- `re.match(r"^\{\{video:([a-zA-Z0-9_\-]+)\}\}\s*$", line.strip())`. -/
def videoMarker (l : List Char) : Option String :=
  match matchLit (("\x7b\x7bvideo:").data) l with
  | some r =>
    let idc := r.takeWhile idChar
    let r2 := r.dropWhile idChar
    if idc.isEmpty then none
    else
      match matchLit (("\x7d\x7d").data) r2 with
      | some r3 => if r3.all isPySpace then some (String.mk idc) else none
      | none => none
  | none => none

/-- `re.match(r"^(#{1,4})\s+(.*)$", line.strip())`: heading level and the
raw heading-text group. -/
def headMatch (l : List Char) : Option (Nat × List Char) :=
  let hs := l.takeWhile (fun c => c = '#')
  let r := l.dropWhile (fun c => c = '#')
  if 1 ≤ hs.length ∧ hs.length ≤ 4 then
    match r with
    | c :: _ => if isPySpace c then some (hs.length, r.dropWhile isPySpace) else none
    | [] => none
  else none

/-- `re.match(r"^(\d+)\.\s+(.*)$", line.strip())`, returning the text group. -/
def olMatch (l : List Char) : Option (List Char) :=
  let ds := l.takeWhile Char.isDigit
  let r := l.dropWhile Char.isDigit
  if ds.isEmpty then none
  else
    match r with
    | '.' :: r2 =>
      (match r2 with
       | c :: _ => if isPySpace c then some (r2.dropWhile isPySpace) else none
       | [] => none)
    | _ => none

/-- `re.match(r"^[-*]\s+(.*)$", line.strip())`, returning the text group. -/
def ulMatch (l : List Char) : Option (List Char) :=
  match l with
  | c :: r =>
    if c = '-' ∨ c = '*' then
      match r with
      | c2 :: _ => if isPySpace c2 then some (r.dropWhile isPySpace) else none
      | [] => none
    else none
  | [] => none

/-- The renderer's open-block flags. -/
structure RState where
  in_ul : Bool
  in_ol : Bool
  in_bq : Bool
  in_teacher : Bool
deriving DecidableEq

/-- Initial render state: all blocks closed. -/
def initSt : RState := ⟨false, false, false, false⟩

/-- Output of `close_lists()`: `</ul>` if open, then `</ol>` if open. -/
def closeListsOut (st : RState) : List String :=
  (if st.in_ul then ["</ul>"] else []) ++ (if st.in_ol then ["</ol>"] else [])

/-- Output of `close_bq()`. -/
def closeBqOut (st : RState) : List String :=
  if st.in_bq then ["</blockquote>"] else []

/-- The heading fragment `f"<h{level}{cls}>{title}</h{level}>"`. -/
def headingOut (lvl : Nat) (txt : List Char) : String :=
  let title := htmlEscape (String.mk (stripL txt))
  let cls := if lvl = 1 then " class=\"doc-title\"" else ""
  "<h" ++ toString lvl ++ cls ++ ">" ++ title ++ "</h" ++ toString lvl ++ ">"

/-- Renderer mode: the index-based loop of `build.py` either processes
lines at top level or is inside a fenced video block (its inner `while`),
so the loop is modelled as a per-line machine with an explicit mode. -/
inductive Mode where
  | normal : Mode
  | fence : FenceSt → Mode
deriving DecidableEq

/-- One line of the `md_to_html` loop of `build.py` (lines 214–348):
emitted fragments, next mode, next state.  Branch order follows the source:
teacher open, teacher close, fence opener, standalone video marker, blank,
heading, blockquote, ordered item, unordered item, paragraph. -/
def lineStep (res : RMap) (l : String) (m : Mode) (st : RState) :
    List String × Mode × RState :=
  match m with
  | Mode.fence fs =>
    let raw := String.mk (rstripNLL l.data)
    if (("```").data).isPrefixOf (stripL raw.data) then
      ([fenceEmit res fs], Mode.normal, st)
    else
      ([], Mode.fence (fenceLine fs raw), st)
  | Mode.normal =>
    let line := String.mk (rstripNLL l.data)
    let ltrim := stripL line.data
    let o1 := closeListsOut st ++ closeBqOut st
    let st1 : RState := { st with in_ul := false, in_ol := false, in_bq := false }
    if ltrim = (":::teacher").data then
      if st.in_teacher then (o1, Mode.normal, st1)
      else (o1 ++ ["<div class=\"teacher-only\">"], Mode.normal,
            { st1 with in_teacher := true })
    else if ltrim = (":::").data then
      if st.in_teacher then (o1 ++ ["</div>"], Mode.normal, { st1 with in_teacher := false })
      else (o1, Mode.normal, st1)
    else
      match fenceOpen ltrim with
      | some rid => (o1, Mode.fence ⟨rid, ⟨"", [], []⟩, none⟩, st1)
      | none =>
        match videoMarker ltrim with
        | some rid => (o1 ++ [video_block rid res], Mode.normal, st1)
        | none =>
          if ltrim.isEmpty then (o1, Mode.normal, st1)
          else
            match headMatch ltrim with
            | some (lvl, txt) => (o1 ++ [headingOut lvl txt], Mode.normal, st1)
            | none =>
              if (lstripL line.data).head? = some '>' then
                let o2 := closeListsOut st
                let stl : RState := { st with in_ul := false, in_ol := false }
                let bqOpen : List String × RState :=
                  if st.in_bq then ([], stl) else (["<blockquote>"], { stl with in_bq := true })
                let content := ((lstripL line.data).drop 1).dropWhile isPySpace
                let txt := inline_format (expand_inline_refs (String.mk content) res)
                (o2 ++ bqOpen.1 ++ ["<p>" ++ txt ++ "</p>"], Mode.normal, bqOpen.2)
              else
                let o2 := closeBqOut st
                let stb : RState := { st with in_bq := false }
                match olMatch ltrim with
                | some txt =>
                  let o3 := (if stb.in_ul then ["</ul>"] else [])
                    ++ (if stb.in_ol then [] else ["<ol>"])
                  let t := inline_format (expand_inline_refs (String.mk (stripL txt)) res)
                  (o2 ++ o3 ++ ["<li>" ++ t ++ "</li>"], Mode.normal,
                   { stb with in_ul := false, in_ol := true })
                | none =>
                  match ulMatch ltrim with
                  | some txt =>
                    let o3 := (if stb.in_ol then ["</ol>"] else [])
                      ++ (if stb.in_ul then [] else ["<ul>"])
                    let t := inline_format (expand_inline_refs (String.mk (stripL txt)) res)
                    (o2 ++ o3 ++ ["<li>" ++ t ++ "</li>"], Mode.normal,
                     { stb with in_ol := false, in_ul := true })
                  | none =>
                    let t := inline_format (expand_inline_refs (String.mk ltrim) res)
                    (o2 ++ closeListsOut stb ++ ["<p>" ++ t ++ "</p>"], Mode.normal,
                     { stb with in_ul := false, in_ol := false })

/-- The whole line loop: fold `lineStep` over the lines; at end of input an
unterminated fenced block still emits its fragment (the source's inner
`while` ends at end of input and the combined fragment is appended). -/
def mdLoop (res : RMap) : List String → Mode → RState → List String × RState
  | [], Mode.normal, st => ([], st)
  | [], Mode.fence fs, st => ([fenceEmit res fs], st)
  | l :: ls, m, st =>
    let r1 := lineStep res l m st
    let r2 := mdLoop res ls r1.2.1 r1.2.2
    (r1.1 ++ r2.1, r2.2)

/-- The full list of emitted fragments for a document: the loop's output
followed by the end-of-input closers, in source order
(`close_lists(); close_bq(); if in_teacher: ...`). -/
def mdBlocks (md : String) (resources : RMap) : List String :=
  let r := mdLoop resources (splitlines md) Mode.normal initSt
  r.1 ++ closeListsOut r.2 ++ closeBqOut r.2
    ++ (if r.2.in_teacher then ["</div>"] else [])

/-- Python `"\n".join`. -/
def joinNL : List String → String
  | [] => ""
  | [s] => s
  | s :: ss => s ++ "\n" ++ joinNL ss

/-- `md_to_html(md, resources)` of `build.py`. -/
def md_to_html (md : String) (resources : RMap) : String :=
  joinNL (mdBlocks md resources)

namespace V3

/-- One line of the `md_to_html` loop of `build_v3.py` (lines 163–234): the
same dispatch as `build.py` with no fenced-video branch and no mode.
Defined separately because `build_v3.py` is a distinct source file. -/
def lineStep (res : RMap) (l : String) (st : RState) : List String × RState :=
  let line := String.mk (rstripNLL l.data)
  let ltrim := stripL line.data
  let o1 := closeListsOut st ++ closeBqOut st
  let st1 : RState := { st with in_ul := false, in_ol := false, in_bq := false }
  if ltrim = (":::teacher").data then
    if st.in_teacher then (o1, st1)
    else (o1 ++ ["<div class=\"teacher-only\">"], { st1 with in_teacher := true })
  else if ltrim = (":::").data then
    if st.in_teacher then (o1 ++ ["</div>"], { st1 with in_teacher := false })
    else (o1, st1)
  else
    match videoMarker ltrim with
    | some rid => (o1 ++ [video_block rid res], st1)
    | none =>
      if ltrim.isEmpty then (o1, st1)
      else
        match headMatch ltrim with
        | some (lvl, txt) => (o1 ++ [headingOut lvl txt], st1)
        | none =>
          if (lstripL line.data).head? = some '>' then
            let o2 := closeListsOut st
            let stl : RState := { st with in_ul := false, in_ol := false }
            let bqOpen : List String × RState :=
              if st.in_bq then ([], stl) else (["<blockquote>"], { stl with in_bq := true })
            let content := ((lstripL line.data).drop 1).dropWhile isPySpace
            let txt := inline_format (expand_inline_refs (String.mk content) res)
            (o2 ++ bqOpen.1 ++ ["<p>" ++ txt ++ "</p>"], bqOpen.2)
          else
            let o2 := closeBqOut st
            let stb : RState := { st with in_bq := false }
            match olMatch ltrim with
            | some txt =>
              let o3 := (if stb.in_ul then ["</ul>"] else [])
                ++ (if stb.in_ol then [] else ["<ol>"])
              let t := inline_format (expand_inline_refs (String.mk (stripL txt)) res)
              (o2 ++ o3 ++ ["<li>" ++ t ++ "</li>"],
               { stb with in_ul := false, in_ol := true })
            | none =>
              match ulMatch ltrim with
              | some txt =>
                let o3 := (if stb.in_ol then ["</ol>"] else [])
                  ++ (if stb.in_ul then [] else ["<ul>"])
                let t := inline_format (expand_inline_refs (String.mk (stripL txt)) res)
                (o2 ++ o3 ++ ["<li>" ++ t ++ "</li>"],
                 { stb with in_ol := false, in_ul := true })
              | none =>
                let t := inline_format (expand_inline_refs (String.mk ltrim) res)
                (o2 ++ closeListsOut stb ++ ["<p>" ++ t ++ "</p>"],
                 { stb with in_ul := false, in_ol := false })

/-- The per-line loop of `build_v3.py`. -/
def mdLoop (res : RMap) : List String → RState → List String × RState
  | [], st => ([], st)
  | l :: ls, st =>
    let r1 := lineStep res l st
    let r2 := mdLoop res ls r1.2
    (r1.1 ++ r2.1, r2.2)

/-- Emitted fragments plus end-of-input closers, `build_v3.py`. -/
def mdBlocks (md : String) (resources : RMap) : List String :=
  let r := mdLoop resources (splitlines md) initSt
  r.1 ++ closeListsOut r.2 ++ closeBqOut r.2
    ++ (if r.2.in_teacher then ["</div>"] else [])

/-- `md_to_html(md, resources)` of `build_v3.py`. -/
def md_to_html (md : String) (resources : RMap) : String :=
  joinNL (mdBlocks md resources)

end V3

/-! ## Helper lemmas -/

theorem getRes_append (r1 r2 : RMap) (q : String) :
    getRes (r1 ++ r2) q =
      match getRes r1 q with
      | some x => some x
      | none => getRes r2 q := by
  induction r1 with
  | nil => simp [getRes]
  | cons p rest ih =>
    obtain ⟨k, it⟩ := p
    by_cases hk : k = q <;> simp [getRes, hk, ih]

theorem getRes_map_upd (k q : String) (v : Item) (res : RMap) :
    getRes (res.map (fun p => if p.1 = k then (k, v) else p)) q =
      if k = q then (getRes res k).map (fun _ => v) else getRes res q := by
  induction res with
  | nil => simp [getRes]
  | cons p rest ih =>
    obtain ⟨a, b⟩ := p
    simp only [List.map_cons]
    by_cases hak : a = k
    · subst hak
      rw [show (if (a, b).1 = a then (a, v) else (a, b)) = (a, v) from if_pos rfl]
      by_cases haq : a = q
      · subst haq
        simp [getRes]
      · simp only [getRes, if_neg haq, ih]
    · rw [show (if (a, b).1 = k then (k, v) else (a, b)) = (a, b) from if_neg hak]
      by_cases haq : a = q
      · subst haq
        have hkq : ¬ k = a := fun h => hak h.symm
        simp [getRes, hkq]
      · simp only [getRes, if_neg haq, ih]
        by_cases hkq : k = q
        · subst hkq
          simp only [if_pos rfl, getRes, if_neg hak]
        · simp only [if_neg hkq]

theorem getRes_rinsert (res : RMap) (k : String) (v : Item) (q : String) :
    getRes (rinsert res k v) q = if k = q then some v else getRes res q := by
  unfold rinsert
  by_cases hp : (getRes res k).isSome
  · rw [if_pos hp, getRes_map_upd]
    by_cases hkq : k = q
    · obtain ⟨x, hx⟩ := Option.isSome_iff_exists.mp hp
      subst hkq
      simp [hx]
    · simp [hkq]
  · rw [if_neg hp, getRes_append]
    have hnone : getRes res k = none := Option.not_isSome_iff_eq_none.mp hp
    by_cases hkq : k = q
    · subst hkq; simp [hnone, getRes]
    · cases hq : getRes res q <;> simp [getRes, hkq, hq]

theorem pbLoop_getRes (ls : List String) :
    ∀ (cur : Option (String × Item)) (acc : RMap) (q : String),
      getRes (pbLoop ls cur acc) q =
        match lastAssoc (pbRecords ls cur) q with
        | some it => some it
        | none => getRes acc q := by
  induction ls with
  | nil =>
    intro cur acc q
    match cur with
    | none => simp [pbLoop, pbRecords, lastAssoc]
    | some (rid, it) =>
      rw [pbLoop, pbRecords, getRes_rinsert]
      by_cases h : rid = q <;> simp [lastAssoc, h]
  | cons l ls ih =>
    intro cur acc q
    match cur with
    | none =>
      rw [pbLoop, pbRecords]
      cases hd : declMatch (rstripL l.data) with
      | none => exact ih none acc q
      | some p => exact ih (some (p.2, initItem p.1)) acc q
    | some (rid, it) =>
      rw [pbLoop, pbRecords]
      by_cases hb : declBreak (rstripL l.data)
      · simp only [hb, if_true]
        cases hd : declMatch (rstripL l.data) with
        | none =>
          rw [ih none (rinsert acc rid it) q, getRes_rinsert, lastAssoc]
          cases lastAssoc (pbRecords ls none) q with
          | some r => simp
          | none => by_cases h : rid = q <;> simp [h]
        | some p =>
          rw [ih (some (p.2, initItem p.1)) (rinsert acc rid it) q, getRes_rinsert,
            lastAssoc]
          cases lastAssoc (pbRecords ls (some (p.2, initItem p.1))) q with
          | some r => simp
          | none => by_cases h : rid = q <;> simp [h]
      · simp only [hb, if_false]
        cases hk : kvMatch (rstripL l.data) with
        | none => exact ih (some (rid, it)) acc q
        | some p => exact ih (some (rid, setAttr it p.1 (String.mk (stripL p.2)))) acc q

/-! ## Claims -/

/-- C1: for every resource id that is absent from the mapping, or whose
record has an empty `url`, `video_block` returns the "Missing bookmark"
fragment containing the HTML-escaped id, and `inline_link` returns the code
span `Missing:<id>` with the escaped id.  Both functions are total, so
neither can raise an error. -/
theorem c1_missing_indicator (rid : String) (res : RMap)
    (h : getRes res rid = none ∨ ∃ it, getRes res rid = some it ∧ it.url = "") :
    video_block rid res =
      "<div class=\x27video\x27><div class=\x27video-top\x27><div class=\x27video-title\x27><span class=\x27tag\x27>Video</span> Missing bookmark: <code>"
        ++ htmlEscape rid ++ "</code></div></div></div>"
      ∧ inline_link rid res = "<code>Missing:" ++ htmlEscape rid ++ "</code>" := by
  rcases h with h | ⟨it, hit, hurl⟩
  · exact ⟨by simp [video_block, h, missingFrag], by simp [inline_link, h, missingInline]⟩
  · exact ⟨by simp [video_block, hit, hurl, missingFrag],
      by simp [inline_link, hit, hurl, missingInline]⟩

/-- Witness for C1 at an unmapped id and at a mapped id with empty url. -/
theorem c1_missing_indicator_witness :
    inline_link "x" [] = "<code>Missing:" ++ htmlEscape "x" ++ "</code>"
      ∧ video_block "v" [("v", ⟨"video", "lbl", "", ""⟩)] =
        "<div class=\x27video\x27><div class=\x27video-top\x27><div class=\x27video-title\x27><span class=\x27tag\x27>Video</span> Missing bookmark: <code>"
          ++ htmlEscape "v" ++ "</code></div></div></div>" :=
  ⟨(c1_missing_indicator "x" [] (Or.inl rfl)).2,
   (c1_missing_indicator "v" [("v", ⟨"video", "lbl", "", ""⟩)]
      (Or.inr ⟨⟨"video", "lbl", "", ""⟩, rfl, rfl⟩)).1⟩

/-- C7: the builder's mapping entry for an id is the final state of the
textually last declaration record with that id (`pbRecords` lists the
finalised records in textual order, duplicates included), so a repeated id
is resolved last-write-wins; `parse_bookmarks` is a total function, so no
error is raised.  The second conjunct shows a concrete document in which
`@video a` is overridden by a later `@link a`. -/
theorem c7_last_write_wins :
    (∀ (md : String) (q : String),
      getRes (parse_bookmarks md) q = lastAssoc (pbRecords (splitlines md) none) q)
    ∧ getRes (parse_bookmarks "@video a\nurl: u1\n@link a\nurl: u2") "a" =
        some ⟨"link", "", "u2", ""⟩ := by
  constructor
  · intro md q
    rw [parse_bookmarks, pbLoop_getRes]
    cases lastAssoc (pbRecords (splitlines md) none) q <;> simp [getRes]
  · decide

theorem lineStep_inv (res : RMap) (l : String) (m : Mode) (st : RState)
    (h : (st.in_ul && st.in_ol) = false) :
    ((lineStep res l m st).2.2.in_ul && (lineStep res l m st).2.2.in_ol) = false := by
  cases m with
  | fence fs =>
    simp only [lineStep]
    split <;> exact h
  | normal =>
    simp only [lineStep]
    repeat' split
    all_goals first | exact h | rfl

theorem mdLoop_inv (res : RMap) (lines : List String) :
    ∀ (m : Mode) (st : RState), (st.in_ul && st.in_ol) = false →
      ((mdLoop res lines m st).2.in_ul && (mdLoop res lines m st).2.in_ol) = false := by
  induction lines with
  | nil =>
    intro m st h
    cases m <;> simpa [mdLoop] using h
  | cons l ls ih =>
    intro m st h
    rw [mdLoop]
    exact ih _ _ (lineStep_inv res l m st h)

/-- C2: at most one of the two list flags is ever set: if a render state
with at most one open list enters the line loop, the state after processing
any sequence of lines still has at most one open list (the induction steps
through the lines one at a time, so this invariant holds after every line).
Concretely, `- a` followed by `1. b` closes the unordered list before
opening the ordered one, producing sibling wrappers. -/
theorem c2_list_flags_exclusive :
    (∀ (res : RMap) (lines : List String) (m : Mode) (st : RState),
        (st.in_ul && st.in_ol) = false →
        ((mdLoop res lines m st).2.in_ul && (mdLoop res lines m st).2.in_ol) = false)
    ∧ md_to_html "- a\n1. b" [] = "<ul>\n<li>a</li>\n</ul>\n<ol>\n<li>b</li>\n</ol>" :=
  ⟨fun res lines m st h => mdLoop_inv res lines m st h, by decide⟩

/-- Witness for C2: the invariant instantiated on a concrete run. -/
theorem c2_list_flags_exclusive_witness :
    ((mdLoop [] ["- a", "1. b"] Mode.normal initSt).2.in_ul
        && (mdLoop [] ["- a", "1. b"] Mode.normal initSt).2.in_ol) = false :=
  c2_list_flags_exclusive.1 [] ["- a", "1. b"] Mode.normal initSt (by decide)

theorem getLast?_append_singleton {α : Type} (xs : List α) (a : α) :
    (xs ++ [a]).getLast? = some a := by
  induction xs with
  | nil => rfl
  | cons x xs ih =>
    cases hxs : xs ++ [a] with
    | nil => exact absurd hxs (by simp)
    | cons y ys =>
      rw [List.cons_append, hxs, List.getLast?_cons_cons, ← hxs, ih]

/-- C8: if the loop finishes with the teacher-only flag still set, the last
emitted fragment of the document is the teacher wrapper's `</div>`; the end
of input first closes an open list, then an open blockquote, then the
teacher wrapper, as the two concrete documents (open teacher + open list,
open teacher + open blockquote) show. -/
theorem c8_eof_closers :
    (∀ (md : String) (res : RMap),
        (mdLoop res (splitlines md) Mode.normal initSt).2.in_teacher = true →
        (mdBlocks md res).getLast? = some "</div>")
    ∧ md_to_html ":::teacher\n- a" [] =
        "<div class=\"teacher-only\">\n<ul>\n<li>a</li>\n</ul>\n</div>"
    ∧ md_to_html ":::teacher\n> q" [] =
        "<div class=\"teacher-only\">\n<blockquote>\n<p>q</p>\n</blockquote>\n</div>" := by
  refine ⟨fun md res h => ?_, by decide, by decide⟩
  simp only [mdBlocks]
  rw [h]
  simp only [if_true]
  exact getLast?_append_singleton _ _

/-- Witness for C8's universally quantified part. -/
theorem c8_eof_closers_witness :
    (mdBlocks ":::teacher" []).getLast? = some "</div>" :=
  c8_eof_closers.1 ":::teacher" [] (by decide)

theorem dropWhile_self (p : Char → Bool) (l : List Char) :
    List.dropWhile p (List.dropWhile p l) = List.dropWhile p l := by
  induction l with
  | nil => rfl
  | cons c rest ih =>
    by_cases hc : p c
    · simp [List.dropWhile_cons, hc, ih]
    · simp [List.dropWhile_cons, hc]

theorem rstripL_rstripL (l : List Char) : rstripL (rstripL l) = rstripL l := by
  unfold rstripL
  rw [List.reverse_reverse, dropWhile_self]

theorem stripL_rstripL (l : List Char) : stripL (rstripL l) = stripL l := by
  unfold stripL
  rw [rstripL_rstripL]

/-- C3: the fenced block `video v1` with body `task: Read the poem`,
`watch:`, `- tone` emits a Task paragraph "Read the poem" and a "Watch for"
list with the single item "tone"; and in general a body line that is
neither the closing fence, nor a `key:` line, nor blank, seen while the
current section is `task`, is appended to the (re-stripped) task string
with a single-space joiner when the task is nonempty and no joiner when it
is empty. -/
theorem c3_task_accumulation :
    md_to_html "```video v1\ntask: Read the poem\nwatch:\n- tone\n```" [] =
      "<div class=\x27video-stack\x27><div class=\x27video\x27><div class=\x27video-top\x27><div class=\x27video-title\x27><span class=\x27tag\x27>Video</span> Missing bookmark: <code>v1</code></div></div></div><div class=\x27local-prompts\x27><div class=\x27local-prompts-title\x27>Local prompts</div><div class=\x27prompt-section\x27><div class=\x27prompt-title\x27>Task</div><p>Read the poem</p></div><div class=\x27prompt-section\x27><div class=\x27prompt-title\x27>Watch for</div><ul><li>tone</li></ul></div></div></div>"
    ∧ (∀ (fs : FenceSt) (raw : String),
        fs.current = some "task" →
        keyMatch (stripL raw.data) = none →
        stripL raw.data ≠ [] →
        fenceLine fs raw =
          { fs with prompts := { fs.prompts with
              task := String.mk
                (stripL fs.prompts.task.data
                  ++ (if (stripL fs.prompts.task.data).isEmpty then [] else [' '])
                  ++ stripL raw.data) } }) := by
  refine ⟨by decide, fun fs raw h1 h2 h3 => ?_⟩
  have hs : stripL (rstripL raw.data) = stripL raw.data := stripL_rstripL raw.data
  simp only [fenceLine, hs, h2, h1]
  rw [if_neg (by decide :
    ¬ ((some ("task" : String)) = some "watch" ∨ (some ("task" : String)) = some "after"))]
  have hne2 : (stripL raw.data).isEmpty = false := by
    revert h3; cases stripL raw.data <;> simp
  simp [hne2]

/-- Witness for C3's universally quantified part: appending `the poem` to a
task that already reads `Read`. -/
theorem c3_task_accumulation_witness :
    fenceLine ⟨"v1", ⟨"Read", [], []⟩, some "task"⟩ "the poem" =
      ⟨"v1", ⟨"Read the poem", [], []⟩, some "task"⟩ := by
  rw [c3_task_accumulation.2 ⟨"v1", ⟨"Read", [], []⟩, some "task"⟩ "the poem" rfl
    (by decide) (by decide)]
  decide

theorem protectGo_no_lt (n : Nat) (acc : List (List Char)) (l : List Char)
    (h : ∀ c ∈ l, c ≠ '<') : protectGo n acc l = (l, acc) := by
  induction n generalizing acc l with
  | zero => rfl
  | succ n ih =>
    cases l with
    | nil => rfl
    | cons c rest =>
      have hc : c ≠ '<' := h c (List.mem_cons_self c rest)
      have hm : anchorMatch (c :: rest) = none := by
        unfold anchorMatch
        rw [show matchLit (("<a").data) (c :: rest) = none from by
          simp [matchLit, fun hcc : c = '<' => hc hcc]]
      rw [protectGo, hm, ih acc rest (fun x hx => h x (List.mem_cons_of_mem c hx))]

theorem htmlEscapeL_id (l : List Char)
    (h : ∀ c ∈ l, c ≠ '&' ∧ c ≠ '<' ∧ c ≠ '>' ∧ c ≠ '"' ∧ c ≠ '\x27') :
    htmlEscapeL l = l := by
  induction l with
  | nil => rfl
  | cons c rest ih =>
    obtain ⟨h1, h2, h3, h4, h5⟩ := h c (List.mem_cons_self c rest)
    have hc : escChar c = [c] := by simp [escChar, h1, h2, h3, h4, h5]
    simp only [htmlEscapeL, List.map_cons, List.flatten_cons, hc]
    simpa [htmlEscapeL] using ih (fun x hx => h x (List.mem_cons_of_mem c hx))

theorem codeSubGo_id (n : Nat) (l : List Char) (h : ∀ c ∈ l, c ≠ '`') :
    codeSubGo n l = l := by
  induction n generalizing l with
  | zero => rfl
  | succ n ih =>
    cases l with
    | nil => rfl
    | cons c rest =>
      have hc : c ≠ '`' := h c (List.mem_cons_self c rest)
      rw [codeSubGo, if_neg hc, ih rest (fun x hx => h x (List.mem_cons_of_mem c hx))]

theorem boldSubGo_id (n : Nat) (l : List Char) (h : ∀ c ∈ l, c ≠ '*') :
    boldSubGo n l = l := by
  induction n generalizing l with
  | zero => rfl
  | succ n ih =>
    cases l with
    | nil => rfl
    | cons c rest =>
      have hc : c ≠ '*' := h c (List.mem_cons_self c rest)
      have ht := ih rest (fun x hx => h x (List.mem_cons_of_mem c hx))
      cases rest with
      | nil => simp [boldSubGo, hc, ht]
      | cons c2 r =>
        by_cases h2 : c2 = '*'
        · exact absurd h2 (h c2 (List.mem_cons_of_mem c (List.mem_cons_self c2 r)))
        · simp only [boldSubGo, if_neg hc, ht]

theorem italSubGo_id (n : Nat) (b : Bool) (l : List Char) (h : ∀ c ∈ l, c ≠ '*') :
    italSubGo n b l = l := by
  induction n generalizing b l with
  | zero => rfl
  | succ n ih =>
    cases l with
    | nil => rfl
    | cons c rest =>
      have hc : c ≠ '*' := h c (List.mem_cons_self c rest)
      rw [italSubGo, if_neg hc, ih false rest (fun x hx => h x (List.mem_cons_of_mem c hx))]

/-- C4 as stated is false: the claim's exclusion list (emphasis markers and
`<`, `&`, `"`, `'`) omits `>`, but `html.escape` also rewrites `>`.  The
string `">"` satisfies every exclusion of the claim yet `inline_format`
turns it into `&gt;`. -/
theorem c4_counterexample :
    (∀ c ∈ (">").data, c ≠ '`' ∧ c ≠ '*' ∧ c ≠ '<' ∧ c ≠ '&' ∧ c ≠ '"' ∧ c ≠ '\x27')
    ∧ inline_format ">" = "&gt;"
    ∧ inline_format ">" ≠ ">" := by
  refine ⟨by decide, by decide, by decide⟩

/-- C4 (amended): a string containing no emphasis marker (backtick or
asterisk) and none of the five characters escaped by `html.escape`
(`<`, `&`, `>`, `"`, `'`) is returned unchanged by `inline_format`. -/
theorem c4_amended_inline_format_id (s : String)
    (h : ∀ c ∈ s.data,
      c ≠ '`' ∧ c ≠ '*' ∧ c ≠ '<' ∧ c ≠ '&' ∧ c ≠ '>' ∧ c ≠ '"' ∧ c ≠ '\x27') :
    inline_format s = s := by
  unfold inline_format
  simp only [protectGo_no_lt s.data.length [] s.data (fun c hc => (h c hc).2.2.1)]
  simp only [htmlEscapeL_id s.data (fun c hc =>
    ⟨(h c hc).2.2.2.1, (h c hc).2.2.1, (h c hc).2.2.2.2.1,
     (h c hc).2.2.2.2.2.1, (h c hc).2.2.2.2.2.2⟩)]
  simp only [codeSubGo_id s.data.length s.data (fun c hc => (h c hc).1)]
  simp only [boldSubGo_id s.data.length s.data (fun c hc => (h c hc).2.1)]
  simp only [italSubGo_id s.data.length false s.data (fun c hc => (h c hc).2.1)]
  rfl

/-- Witness for the amended C4. -/
theorem c4_amended_inline_format_id_witness :
    inline_format "hello world." = "hello world." :=
  c4_amended_inline_format_id "hello world." (by decide)

theorem length_dropWhile_le' (p : Char → Bool) (l : List Char) :
    (l.dropWhile p).length ≤ l.length := by
  induction l with
  | nil => simp
  | cons c rest ih =>
    by_cases hc : p c
    · rw [List.dropWhile_cons_of_pos hc]; exact Nat.le_succ_of_le ih
    · rw [List.dropWhile_cons_of_neg hc]

theorem dropWhile_len_eq (p : Char → Bool) (l : List Char)
    (h : (l.dropWhile p).length = l.length) : l.dropWhile p = l := by
  cases l with
  | nil => rfl
  | cons c cs =>
    by_cases hc : p c
    · rw [List.dropWhile_cons_of_pos hc] at h
      have := length_dropWhile_le' p cs
      simp at h; omega
    · rw [List.dropWhile_cons_of_neg hc]

theorem rstripL_of_stripL_eq (v : List Char) (h : stripL v = v) : rstripL v = v := by
  have h1 : (List.dropWhile isPySpace v.reverse).length = v.reverse.length := by
    have ha : (rstripL v).length ≤ v.length := by
      unfold rstripL
      rw [List.length_reverse]
      calc (List.dropWhile isPySpace v.reverse).length
          ≤ v.reverse.length := length_dropWhile_le' _ _
        _ = v.length := List.length_reverse v
    have hb : (stripL v).length ≤ (rstripL v).length := by
      unfold stripL lstripL
      exact length_dropWhile_le' _ _
    rw [h] at hb
    unfold rstripL at ha hb
    rw [List.length_reverse] at ha hb
    rw [List.length_reverse]
    omega
  have h2 := dropWhile_len_eq _ _ h1
  unfold rstripL
  rw [h2, List.reverse_reverse]

theorem lstripL_of_stripL_eq (v : List Char) (h : stripL v = v) : lstripL v = v := by
  have hr := rstripL_of_stripL_eq v h
  unfold stripL at h
  rw [hr] at h
  exact h

theorem head_not_space_of_stripped (v : List Char) (h : stripL v = v) :
    ∀ c cs, v = c :: cs → isPySpace c = false := by
  intro c cs hv
  have hl := lstripL_of_stripL_eq v h
  subst hv
  by_contra hc
  have hc' : isPySpace c = true := by revert hc; cases isPySpace c <;> simp
  unfold lstripL at hl
  rw [List.dropWhile_cons_of_pos hc'] at hl
  have := congrArg List.length hl
  have hle := length_dropWhile_le' isPySpace cs
  simp at this; omega

theorem last_not_space_of_stripped (v : List Char) (h : stripL v = v) :
    ∀ c cs, v.reverse = c :: cs → isPySpace c = false := by
  intro c cs hv
  have hr := rstripL_of_stripL_eq v h
  by_contra hc
  have hc' : isPySpace c = true := by revert hc; cases isPySpace c <;> simp
  unfold rstripL at hr
  rw [hv, List.dropWhile_cons_of_pos hc'] at hr
  have := congrArg List.length hr
  rw [List.length_reverse] at this
  have hle := length_dropWhile_le' isPySpace cs
  have hvlen : v.length = cs.length + 1 := by
    have := congrArg List.length hv
    rw [List.length_reverse] at this
    simpa using this
  omega

theorem rstripL_append_of_stripped (x v : List Char)
    (hv : stripL v = v) (hne : v ≠ []) : rstripL (x ++ v) = x ++ v := by
  unfold rstripL
  rw [List.reverse_append]
  cases hrev : v.reverse with
  | nil =>
    exact absurd (by simpa using congrArg List.reverse hrev) hne
  | cons c cs =>
    have hc : isPySpace c = false := last_not_space_of_stripped v hv c cs hrev
    rw [List.cons_append, List.dropWhile_cons_of_neg (by simp [hc]),
      ← List.cons_append, ← hrev, ← List.reverse_append, List.reverse_reverse]

theorem dropWhile_append_of_all (p : Char → Bool) (a b : List Char)
    (h : ∀ c ∈ a, p c = true) :
    List.dropWhile p (a ++ b) = List.dropWhile p b := by
  induction a with
  | nil => rfl
  | cons c rest ih =>
    rw [List.cons_append,
      List.dropWhile_cons_of_pos (by simp [h c (List.mem_cons_self c rest)]),
      ih (fun x hx => h x (List.mem_cons_of_mem c hx))]

theorem rstripL_append_spaces (a b : List Char) (h : ∀ c ∈ b, isPySpace c = true) :
    rstripL (a ++ b) = rstripL a := by
  unfold rstripL
  rw [List.reverse_append, dropWhile_append_of_all _ _ _ (fun c hc => h c (by
    simpa using hc))]

/-- C5 as stated is false: the key-value regex is anchored at the start of
the (only right-stripped) line, so an *indented* attribute line is silently
ignored.  In `@video v1` followed by `  url: x`, the record's `url` stays
empty instead of becoming `"x"`. -/
theorem c5_counterexample :
    getRes (parse_bookmarks "@video v1\n  url: x") "v1" = some ⟨"video", "", "", ""⟩
    ∧ getRes (parse_bookmarks "@video v1\n  url: x") "v1" ≠ some ⟨"video", "", "x", ""⟩ := by
  refine ⟨by decide, by decide⟩

/-- C5 (amended): while a declaration is open, an attribute line
`key: value` *with no leading indentation* sets the current record's
attribute to the trimmed value, whereas the same line carrying leading
indentation is ignored and leaves the record unchanged.  `v` is assumed
already trimmed and nonempty (the general value shape after trimming). -/
theorem c5_amended_attr_lines (key v : String) (ls : List String) (rid : String)
    (it : Item) (acc : RMap)
    (hk : key = "label" ∨ key = "url" ∨ key = "desc")
    (hv1 : stripL v.data = v.data) (hv2 : v ≠ "") :
    pbLoop ((key ++ ": " ++ v) :: ls) (some (rid, it)) acc
        = pbLoop ls (some (rid, setAttr it key v)) acc
    ∧ pbLoop (("  " ++ key ++ ": " ++ v) :: ls) (some (rid, it)) acc
        = pbLoop ls (some (rid, it)) acc := by
  have hvd : v.data ≠ [] := fun hd => hv2 (by
    have hmk : v = String.mk v.data := rfl
    rw [hmk, hd])
  have hlstrip : List.dropWhile isPySpace v.data = v.data := lstripL_of_stripL_eq v.data hv1
  have hvEmpty : v.data.isEmpty = false := by
    revert hvd; cases v.data <;> simp
  rcases hk with hk | hk | hk <;> subst hk
  · -- label: unindented line sets the attribute
    refine ⟨?_, ?_⟩
    · have hr : rstripL (("label" ++ ": " ++ v)).data = ("label").data ++ [':', ' '] ++ v.data := by
        rw [show (("label" ++ ": " ++ v)).data = ("label").data ++ [':', ' '] ++ v.data from rfl]
        exact rstripL_append_of_stripped _ _ hv1 hvd
      have hkv : kvMatch (("label").data ++ [':', ' '] ++ v.data) = some ("label", v.data) := by
        show Option.map (fun w => (("label" : String), w))
            (if (List.dropWhile isPySpace v.data).isEmpty = true then none
             else some (List.dropWhile isPySpace v.data)) = some ("label", v.data)
        rw [hlstrip, hvEmpty]
        rfl
      have hbr : declBreak (("label").data ++ [':', ' '] ++ v.data) = false := rfl
      rw [pbLoop.eq_def]
      simp only [hr, hbr, hkv, Bool.false_eq_true, if_false]
      rw [hv1]
    · have hr : rstripL (("  " ++ "label" ++ ": " ++ v)).data
          = [' ', ' '] ++ ("label").data ++ [':', ' '] ++ v.data := by
        rw [show (("  " ++ "label" ++ ": " ++ v)).data
            = [' ', ' '] ++ ("label").data ++ [':', ' '] ++ v.data from rfl]
        exact rstripL_append_of_stripped _ _ hv1 hvd
      have hkv : kvMatch ([' ', ' '] ++ ("label").data ++ [':', ' '] ++ v.data) = none := rfl
      have hbr : declBreak ([' ', ' '] ++ ("label").data ++ [':', ' '] ++ v.data) = false := rfl
      rw [pbLoop.eq_def]
      simp only [hr, hbr, hkv, Bool.false_eq_true, if_false]
  · -- url: unindented line sets the attribute
    refine ⟨?_, ?_⟩
    · have hr : rstripL (("url" ++ ": " ++ v)).data = ("url").data ++ [':', ' '] ++ v.data := by
        rw [show (("url" ++ ": " ++ v)).data = ("url").data ++ [':', ' '] ++ v.data from rfl]
        exact rstripL_append_of_stripped _ _ hv1 hvd
      have hkv : kvMatch (("url").data ++ [':', ' '] ++ v.data) = some ("url", v.data) := by
        show Option.map (fun w => (("url" : String), w))
            (if (List.dropWhile isPySpace v.data).isEmpty = true then none
             else some (List.dropWhile isPySpace v.data)) = some ("url", v.data)
        rw [hlstrip, hvEmpty]
        rfl
      have hbr : declBreak (("url").data ++ [':', ' '] ++ v.data) = false := rfl
      rw [pbLoop.eq_def]
      simp only [hr, hbr, hkv, Bool.false_eq_true, if_false]
      rw [hv1]
    · have hr : rstripL (("  " ++ "url" ++ ": " ++ v)).data
          = [' ', ' '] ++ ("url").data ++ [':', ' '] ++ v.data := by
        rw [show (("  " ++ "url" ++ ": " ++ v)).data
            = [' ', ' '] ++ ("url").data ++ [':', ' '] ++ v.data from rfl]
        exact rstripL_append_of_stripped _ _ hv1 hvd
      have hkv : kvMatch ([' ', ' '] ++ ("url").data ++ [':', ' '] ++ v.data) = none := rfl
      have hbr : declBreak ([' ', ' '] ++ ("url").data ++ [':', ' '] ++ v.data) = false := rfl
      rw [pbLoop.eq_def]
      simp only [hr, hbr, hkv, Bool.false_eq_true, if_false]
  · -- desc: unindented line sets the attribute
    refine ⟨?_, ?_⟩
    · have hr : rstripL (("desc" ++ ": " ++ v)).data = ("desc").data ++ [':', ' '] ++ v.data := by
        rw [show (("desc" ++ ": " ++ v)).data = ("desc").data ++ [':', ' '] ++ v.data from rfl]
        exact rstripL_append_of_stripped _ _ hv1 hvd
      have hkv : kvMatch (("desc").data ++ [':', ' '] ++ v.data) = some ("desc", v.data) := by
        show Option.map (fun w => (("desc" : String), w))
            (if (List.dropWhile isPySpace v.data).isEmpty = true then none
             else some (List.dropWhile isPySpace v.data)) = some ("desc", v.data)
        rw [hlstrip, hvEmpty]
        rfl
      have hbr : declBreak (("desc").data ++ [':', ' '] ++ v.data) = false := rfl
      rw [pbLoop.eq_def]
      simp only [hr, hbr, hkv, Bool.false_eq_true, if_false]
      rw [hv1]
    · have hr : rstripL (("  " ++ "desc" ++ ": " ++ v)).data
          = [' ', ' '] ++ ("desc").data ++ [':', ' '] ++ v.data := by
        rw [show (("  " ++ "desc" ++ ": " ++ v)).data
            = [' ', ' '] ++ ("desc").data ++ [':', ' '] ++ v.data from rfl]
        exact rstripL_append_of_stripped _ _ hv1 hvd
      have hkv : kvMatch ([' ', ' '] ++ ("desc").data ++ [':', ' '] ++ v.data) = none := rfl
      have hbr : declBreak ([' ', ' '] ++ ("desc").data ++ [':', ' '] ++ v.data) = false := rfl
      rw [pbLoop.eq_def]
      simp only [hr, hbr, hkv, Bool.false_eq_true, if_false]

/-- Witness for the amended C5. -/
theorem c5_amended_attr_lines_witness :
    pbLoop ["url: x"] (some ("v1", ⟨"video", "", "", ""⟩)) []
        = pbLoop [] (some ("v1", ⟨"video", "", "x", ""⟩)) []
    ∧ pbLoop ["  url: x"] (some ("v1", ⟨"video", "", "", ""⟩)) []
        = pbLoop [] (some ("v1", ⟨"video", "", "", ""⟩)) [] := by
  have h := c5_amended_attr_lines "url" "x" [] "v1" ⟨"video", "", "", ""⟩ []
    (Or.inr (Or.inl rfl)) (by decide) (by decide)
  exact ⟨h.1, h.2⟩

/-- C10: inside an open declaration, an attribute line whose value part is
empty or whitespace-only (`key:` possibly followed by spaces) fails the
key-value regex (whose value group `(.+)` needs a nonempty value after
right-stripping), so the step leaves the current record unchanged — the
attribute keeps its previous value instead of being cleared. -/
theorem c10_blank_value_ignored (key ws : String) (ls : List String) (rid : String)
    (it : Item) (acc : RMap)
    (hk : key = "label" ∨ key = "url" ∨ key = "desc")
    (hws : ∀ c ∈ ws.data, isPySpace c = true) :
    kvMatch (rstripL ((key ++ ":" ++ ws)).data) = none
    ∧ pbLoop ((key ++ ":" ++ ws) :: ls) (some (rid, it)) acc
        = pbLoop ls (some (rid, it)) acc := by
  rcases hk with hk | hk | hk <;> subst hk
  · have hr : rstripL (("label" ++ ":" ++ ws)).data = ("label").data ++ [':'] := by
      rw [show (("label" ++ ":" ++ ws)).data = (("label").data ++ [':']) ++ ws.data from rfl,
        rstripL_append_spaces _ _ hws]
      decide
    have hkv : kvMatch (("label").data ++ [':']) = none := rfl
    have hbr : declBreak (("label").data ++ [':']) = false := rfl
    refine ⟨by rw [hr]; exact hkv, ?_⟩
    rw [pbLoop.eq_def]
    simp only [hr, hbr, hkv, Bool.false_eq_true, if_false]
  · have hr : rstripL (("url" ++ ":" ++ ws)).data = ("url").data ++ [':'] := by
      rw [show (("url" ++ ":" ++ ws)).data = (("url").data ++ [':']) ++ ws.data from rfl,
        rstripL_append_spaces _ _ hws]
      decide
    have hkv : kvMatch (("url").data ++ [':']) = none := rfl
    have hbr : declBreak (("url").data ++ [':']) = false := rfl
    refine ⟨by rw [hr]; exact hkv, ?_⟩
    rw [pbLoop.eq_def]
    simp only [hr, hbr, hkv, Bool.false_eq_true, if_false]
  · have hr : rstripL (("desc" ++ ":" ++ ws)).data = ("desc").data ++ [':'] := by
      rw [show (("desc" ++ ":" ++ ws)).data = (("desc").data ++ [':']) ++ ws.data from rfl,
        rstripL_append_spaces _ _ hws]
      decide
    have hkv : kvMatch (("desc").data ++ [':']) = none := rfl
    have hbr : declBreak (("desc").data ++ [':']) = false := rfl
    refine ⟨by rw [hr]; exact hkv, ?_⟩
    rw [pbLoop.eq_def]
    simp only [hr, hbr, hkv, Bool.false_eq_true, if_false]

/-- Witness for C10: a bare `url:` line (with trailing spaces) leaves a
previously set url untouched. -/
theorem c10_blank_value_ignored_witness :
    kvMatch (rstripL (("url" ++ ":" ++ "   ")).data) = none
    ∧ pbLoop [("url" ++ ":" ++ "   ")] (some ("v1", ⟨"video", "", "u1", ""⟩)) []
        = pbLoop [] (some ("v1", ⟨"video", "", "u1", ""⟩)) [] :=
  c10_blank_value_ignored "url" "   " [] "v1" ⟨"video", "", "u1", ""⟩ []
    (Or.inr (Or.inl rfl)) (by decide)

theorem lineStep_eq_v3 (res : RMap) (l : String) (st : RState)
    (h : fenceOpen (stripL (rstripNLL l.data)) = none) :
    lineStep res l Mode.normal st
      = ((V3.lineStep res l st).1, Mode.normal, (V3.lineStep res l st).2) := by
  simp only [lineStep, V3.lineStep, h]
  repeat' split
  all_goals rfl

theorem mdLoop_eq_v3 (res : RMap) (lines : List String) :
    ∀ st : RState, (∀ l ∈ lines, fenceOpen (stripL (rstripNLL l.data)) = none) →
      mdLoop res lines Mode.normal st = V3.mdLoop res lines st := by
  induction lines with
  | nil => intro st _; rfl
  | cons l ls ih =>
    intro st h
    have h1 := lineStep_eq_v3 res l st (h l (List.mem_cons_self l ls))
    simp only [mdLoop, V3.mdLoop, h1]
    rw [ih _ (fun x hx => h x (List.mem_cons_of_mem l hx))]

/-- C6: on any document without a fenced-video opener line, `md_to_html` of
`build.py` and `md_to_html` of `build_v3.py` produce identical HTML for the
same resource mapping — the per-line variant is a strict behavioural subset
of the index-based one. -/
theorem c6_v3_refinement (md : String) (res : RMap)
    (h : ∀ l ∈ splitlines md, fenceOpen (stripL (rstripNLL l.data)) = none) :
    md_to_html md res = V3.md_to_html md res := by
  unfold md_to_html V3.md_to_html mdBlocks V3.mdBlocks
  rw [mdLoop_eq_v3 res (splitlines md) initSt h]

/-- Witness for C6 on a document exercising headings, lists, blockquotes
and the teacher block. -/
theorem c6_v3_refinement_witness :
    md_to_html "# Title\n- a\n1. b\n> q\n:::teacher\nsecret\n:::" []
      = V3.md_to_html "# Title\n- a\n1. b\n> q\n:::teacher\nsecret\n:::" [] :=
  c6_v3_refinement "# Title\n- a\n1. b\n> q\n:::teacher\nsecret\n:::" [] (by decide)

/-- The part of a resource mapping that rendering can depend on: everything
except the `type` field. -/
def viewMap (r : RMap) : List (String × String × String × String) :=
  r.map (fun p => (p.1, p.2.label, p.2.url, p.2.desc))

theorem getRes_view (r1 r2 : RMap) (h : viewMap r1 = viewMap r2) (q : String) :
    (getRes r1 q).map (fun it => (it.label, it.url, it.desc))
      = (getRes r2 q).map (fun it => (it.label, it.url, it.desc)) := by
  induction r1 generalizing r2 with
  | nil =>
    cases r2 with
    | nil => rfl
    | cons p2 rest2 => simp [viewMap] at h
  | cons p rest ih =>
    cases r2 with
    | nil => simp [viewMap] at h
    | cons p2 rest2 =>
      obtain ⟨a, b⟩ := p
      obtain ⟨a2, b2⟩ := p2
      simp only [viewMap, List.map_cons, List.cons.injEq, Prod.mk.injEq] at h
      obtain ⟨⟨hk, hl, hu, hd⟩, hrest⟩ := h
      subst hk
      by_cases hq : a = q
      · simp [getRes, if_pos hq, hl, hu, hd]
      · simp only [getRes, if_neg hq]
        exact ih rest2 hrest

theorem video_block_view (r1 r2 : RMap) (h : viewMap r1 = viewMap r2) (rid : String) :
    video_block rid r1 = video_block rid r2 := by
  have hv := getRes_view r1 r2 h rid
  unfold video_block
  cases h1 : getRes r1 rid with
  | none =>
    cases h2 : getRes r2 rid with
    | none => rfl
    | some i2 => rw [h1, h2] at hv; simp at hv
  | some i1 =>
    cases h2 : getRes r2 rid with
    | none => rw [h1, h2] at hv; simp at hv
    | some i2 =>
      rw [h1, h2] at hv
      simp at hv
      obtain ⟨hl, hu, hd⟩ := hv
      show (if i1.url = "" then missingFrag rid else videoBody i1.url i1.label i1.desc)
        = (if i2.url = "" then missingFrag rid else videoBody i2.url i2.label i2.desc)
      rw [hl, hu, hd]

theorem inline_link_view (r1 r2 : RMap) (h : viewMap r1 = viewMap r2) (rid : String) :
    inline_link rid r1 = inline_link rid r2 := by
  have hv := getRes_view r1 r2 h rid
  unfold inline_link
  cases h1 : getRes r1 rid with
  | none =>
    cases h2 : getRes r2 rid with
    | none => rfl
    | some i2 => rw [h1, h2] at hv; simp at hv
  | some i1 =>
    cases h2 : getRes r2 rid with
    | none => rw [h1, h2] at hv; simp at hv
    | some i2 =>
      rw [h1, h2] at hv
      simp at hv
      obtain ⟨hl, hu, hd⟩ := hv
      show (if i1.url = "" then missingInline rid
          else "<a href=\"" ++ htmlEscape i1.url ++ "\" target=\"_blank\" rel=\"noreferrer\">"
            ++ htmlEscape (stripS (if i1.label = "" then "Link" else i1.label)) ++ "</a>")
        = (if i2.url = "" then missingInline rid
          else "<a href=\"" ++ htmlEscape i2.url ++ "\" target=\"_blank\" rel=\"noreferrer\">"
            ++ htmlEscape (stripS (if i2.label = "" then "Link" else i2.label)) ++ "</a>")
      rw [hl, hu]

theorem expandRefsGo_view (r1 r2 : RMap) (h : viewMap r1 = viewMap r2) :
    ∀ (n : Nat) (l : List Char), expandRefsGo r1 n l = expandRefsGo r2 n l := by
  intro n
  induction n with
  | zero => intro l; rfl
  | succ n ih =>
    intro l
    cases l with
    | nil => rfl
    | cons c rest =>
      simp only [expandRefsGo]
      cases hm : matchLit (("\x7b\x7blink:").data) (c :: rest) with
      | none => simp [hm, ih]
      | some r =>
        simp only [hm]
        by_cases hidc : (r.takeWhile idChar).isEmpty
        · simp [hidc, ih]
        · simp only [hidc, if_false, Bool.false_eq_true]
          cases hm2 : matchLit (("\x7d\x7d").data) (r.dropWhile idChar) with
          | none => simp [hm2, hidc, ih]
          | some r3 => simp [hm2, hidc, ih, inline_link_view r1 r2 h]

theorem expand_inline_refs_view (r1 r2 : RMap) (h : viewMap r1 = viewMap r2)
    (s : String) : expand_inline_refs s r1 = expand_inline_refs s r2 := by
  unfold expand_inline_refs
  rw [expandRefsGo_view r1 r2 h]

theorem local_prompts_block_view (r1 r2 : RMap) (h : viewMap r1 = viewMap r2)
    (p : Prompts) : local_prompts_block p r1 = local_prompts_block p r2 := by
  simp only [local_prompts_block]
  rw [expand_inline_refs_view r1 r2 h (stripS p.task)]
  rw [show (fun it => "<li>" ++ inline_format (expand_inline_refs it r1) ++ "</li>")
      = (fun it => "<li>" ++ inline_format (expand_inline_refs it r2) ++ "</li>") from
    funext (fun it => by rw [expand_inline_refs_view r1 r2 h it])]

theorem fenceEmit_view (r1 r2 : RMap) (h : viewMap r1 = viewMap r2) (fs : FenceSt) :
    fenceEmit r1 fs = fenceEmit r2 fs := by
  unfold fenceEmit
  rw [video_block_view r1 r2 h, local_prompts_block_view r1 r2 h]

theorem lineStep_view (r1 r2 : RMap) (h : viewMap r1 = viewMap r2)
    (l : String) (m : Mode) (st : RState) :
    lineStep r1 l m st = lineStep r2 l m st := by
  cases m with
  | fence fs =>
    simp only [lineStep]
    split
    · rw [fenceEmit_view r1 r2 h]
    · rfl
  | normal =>
    simp only [lineStep]
    repeat' split
    all_goals first
      | rfl
      | rw [video_block_view r1 r2 h]
      | rw [expand_inline_refs_view r1 r2 h]

theorem mdLoop_view (r1 r2 : RMap) (h : viewMap r1 = viewMap r2)
    (lines : List String) : ∀ (m : Mode) (st : RState),
    mdLoop r1 lines m st = mdLoop r2 lines m st := by
  induction lines with
  | nil =>
    intro m st
    cases m with
    | normal => rfl
    | fence fs => simp only [mdLoop]; rw [fenceEmit_view r1 r2 h]
  | cons l ls ih =>
    intro m st
    simp only [mdLoop]
    rw [lineStep_view r1 r2 h l m st, ih]

/-- C9: rendering never depends on a resource's stored `type`: if two
mappings agree on ids, labels, urls and descriptions (`viewMap`), then
`video_block`, `inline_link` and the whole document renderer agree.  In
particular a `{{video:v}}` marker whose resource was declared with `@link`
but has a nonempty url renders the full video fragment, not the
missing-bookmark fragment. -/
theorem c9_type_field_independent :
    (∀ (r1 r2 : RMap), viewMap r1 = viewMap r2 →
      ∀ (rid : String) (md : String),
        video_block rid r1 = video_block rid r2
        ∧ inline_link rid r1 = inline_link rid r2
        ∧ md_to_html md r1 = md_to_html md r2)
    ∧ md_to_html "\x7b\x7bvideo:v\x7d\x7d" [("v", ⟨"link", "L", "https://example.com", ""⟩)]
        = "<div class=\x27video\x27><div class=\x27video-top\x27><div class=\x27video-title\x27><span class=\x27tag\x27>Video</span> <a href=\"https://example.com\" target=\"_blank\" rel=\"noreferrer\"><strong>L</strong></a></div></div><div class=\x27video-bottom\x27><p class=\x27video-open\x27><a href=\"https://example.com\" target=\"_blank\" rel=\"noreferrer\">Open on YouTube</a></p></div></div>"
    ∧ md_to_html "\x7b\x7bvideo:v\x7d\x7d" [("v", ⟨"link", "L", "https://example.com", ""⟩)]
        ≠ missingFrag "v" := by
  refine ⟨fun r1 r2 h rid md => ⟨video_block_view r1 r2 h rid,
    inline_link_view r1 r2 h rid, ?_⟩, by decide, by decide⟩
  unfold md_to_html mdBlocks
  rw [mdLoop_view r1 r2 h (splitlines md) Mode.normal initSt]

/-- Witness for C9: two mappings differing only in the `type` of the entry. -/
theorem c9_type_field_independent_witness :
    video_block "v" [("v", ⟨"video", "L", "u", ""⟩)]
        = video_block "v" [("v", ⟨"link", "L", "u", ""⟩)]
    ∧ inline_link "v" [("v", ⟨"video", "L", "u", ""⟩)]
        = inline_link "v" [("v", ⟨"link", "L", "u", ""⟩)]
    ∧ md_to_html "x" [("v", ⟨"video", "L", "u", ""⟩)]
        = md_to_html "x" [("v", ⟨"link", "L", "u", ""⟩)] :=
  c9_type_field_independent.1 [("v", ⟨"video", "L", "u", ""⟩)]
    [("v", ⟨"link", "L", "u", ""⟩)] (by decide) "v" "x"

end Classroom
